import Mathlib

set_option maxHeartbeats 1000000

namespace Kagi

/-! Shallow embedding of the rendering pipeline of `main.go` from
github.com/grantcarthew/kagi.  The data model mirrors the Go structs
`FastGPTResponse`, `Reference` and `Config`; the renderers mirror
`formatText_output`, `formatMarkdown_output`, `formatJSON_output` and the
dispatcher `formatOutput`.  Go's `term.IsTerminal(os.Stdout)` is an external
signal and is passed in as the boolean `stdoutIsTerminal`. -/

/-- ANSI color codes from `main.go` (`\033` = ESC = `\x1b`). -/
def ansiReset : String := "\x1b[0m"

def ansiBold : String := "\x1b[1m"

def ansiBlue : String := "\x1b[34m"

def ansiBoldBlue : String := "\x1b[1;34m"

def ansiCyan : String := "\x1b[36m"

def ansiYellow : String := "\x1b[33m"

/-- Go struct `Reference` (`main.go` lines 124-128). -/
structure Reference where
  Title : String
  Snippet : String
  URL : String
deriving DecidableEq, Repr

/-- The `Meta` block of Go struct `FastGPTResponse` (`main.go` lines 105-109). -/
structure FastGPTMeta where
  ID : String
  Node : String
  MS : Int
deriving DecidableEq, Repr

/-- The `Data` block of Go struct `FastGPTResponse` (`main.go` lines 110-114).
The Go field `References []Reference` is a slice, which is either `nil`
(modelled as `none`) or a backed, possibly empty, sequence (modelled as
`some list`).  The distinction is observable: `encoding/json` marshals a nil
slice as `null` and a non-nil empty slice as `[]`, while `len` and `range`
treat both as empty. -/
structure FastGPTData where
  Output : String
  Tokens : Int
  References : Option (List Reference)
deriving DecidableEq, Repr

/-- Go struct `FastGPTResponse` (`main.go` lines 104-115). -/
structure FastGPTResponse where
  Meta : FastGPTMeta
  Data : FastGPTData
deriving DecidableEq, Repr

/-- Go struct `Config` (`main.go` lines 130-140). -/
structure Config where
  APIKey : String
  Query : String
  Format : String
  Timeout : Int
  Heading : Bool
  Quiet : Bool
  Color : String
  Verbose : Bool
  Debug : Bool
deriving DecidableEq, Repr

/-- The sequence of references the Go loops traverse: `len` and
`range` over a `[]Reference` treat a nil slice exactly like an empty one. -/
def refsList (resp : FastGPTResponse) : List Reference :=
  match resp.Data.References with
  | none => []
  | some l => l

/-- `shouldUseColor` (`main.go` lines 338-349); the `auto` arm consults
`term.IsTerminal(os.Stdout)`, supplied here as `stdoutIsTerminal`. -/
def shouldUseColor (config : Config) (stdoutIsTerminal : Bool) : Bool :=
  if config.Color = "always" then true
  else if config.Color = "never" then false
  else if config.Color = "auto" then stdoutIsTerminal
  else false

/-- `colorize` (`main.go` lines 351-356). -/
def colorize (text colorCode : String) (useColor : Bool) : String :=
  if useColor = false then text
  else colorCode ++ text ++ ansiReset

/-- Decimal digit character, as produced by Go's integer formatting. -/
def digitChar (n : Nat) : Char := Char.ofNat (48 + n)

/-- Digit accumulator of Go's `strconv` decimal formatting: repeatedly divide
by 10, most significant digit first.  The first argument is fuel bounding the
number of digits (any fuel at least the digit count gives the same result). -/
def natDigitsAux : Nat → Nat → List Char → List Char
  | 0, _, acc => acc
  | fuel+1, n, acc =>
    if n = 0 then acc else natDigitsAux fuel (n / 10) (digitChar (n % 10) :: acc)

/-- Minimal decimal digit list of a natural number (Go `strconv.Itoa` on
non-negative input). -/
def natDigits (n : Nat) : List Char :=
  if n = 0 then ['0'] else natDigitsAux n n []

/-- Decimal rendering of a natural number, as Go's `fmt.Sprintf("%d", n)`. -/
def natToDec (n : Nat) : String := String.mk (natDigits n)

/-- Go `strconv` formatting of an `int` (used by `encoding/json` for the
`ms` and `tokens` fields): minimal decimal digits, with a leading `-` for
negative values. -/
def goItoa (i : Int) : String :=
  if i < 0 then "-" ++ natToDec i.natAbs else natToDec i.natAbs

/-- One iteration of the references loop of `formatText_output`
(`main.go` lines 387-402), for the reference at zero-based index `i`
rendered with number `n = i+1`: colorized `"{n}. "`, title, `" - "`,
colorized URL, the snippet preceded by `" - "` only when non-empty, and a
terminating newline. -/
def textRefLine (useColor : Bool) (n : Nat) (ref : Reference) : String :=
  colorize (natToDec n ++ ". ") ansiYellow useColor ++
  ref.Title ++ " - " ++
  colorize ref.URL ansiCyan useColor ++
  (if ref.Snippet ≠ "" then " - " ++ ref.Snippet else "") ++
  "\n"

/-- The references loop of `formatText_output` (`main.go` lines 387-402),
carrying the zero-based Go loop index `i`. -/
def textRefLoop (useColor : Bool) : Nat → List Reference → String
  | _, [] => ""
  | i, ref :: rest => textRefLine useColor (i + 1) ref ++ textRefLoop useColor (i + 1) rest

/-- `formatText_output` (`main.go` lines 369-406): optional heading when
`Heading && !Quiet`, the answer plus newline, then the references block when
`!Quiet` and the reference sequence is non-empty. -/
def formatText_output (resp : FastGPTResponse) (config : Config)
    (stdoutIsTerminal : Bool) : String :=
  let useColor := shouldUseColor config stdoutIsTerminal
  (if config.Heading && !config.Quiet then
    colorize ("# " ++ config.Query) ansiBoldBlue useColor ++ "\n\n"
  else "") ++
  resp.Data.Output ++ "\n" ++
  (if !config.Quiet && decide ((refsList resp).length > 0) then
    "\n" ++ colorize "References:" ansiBold useColor ++ "\n\n" ++
    textRefLoop useColor 0 (refsList resp)
  else "")

/-- The references loop of `formatMarkdown_output` (`main.go` lines 428-436):
`"{n}. [{title}]({url})"` plus newline, and an indented blockquote line for a
non-empty snippet. -/
def mdRefLoop : Nat → List Reference → String
  | _, [] => ""
  | i, ref :: rest =>
    natToDec (i + 1) ++ ". [" ++ ref.Title ++ "](" ++ ref.URL ++ ")\n" ++
    (if ref.Snippet ≠ "" then "   > " ++ ref.Snippet ++ "\n" else "") ++
    mdRefLoop (i + 1) rest

/-- `formatMarkdown_output` (`main.go` lines 408-440): in quiet mode just the
answer plus newline; otherwise an unconditional `# query` heading, the answer,
and the references section when non-empty. -/
def formatMarkdown_output (resp : FastGPTResponse) (config : Config) : String :=
  if config.Quiet then
    resp.Data.Output ++ "\n"
  else
    "# " ++ config.Query ++ "\n\n" ++
    resp.Data.Output ++ "\n" ++
    (if decide ((refsList resp).length > 0) then
      "\n## References\n\n" ++ mdRefLoop 0 (refsList resp)
    else "")

/-- Go's `encoding/json` lowercase hex digit table `"0123456789abcdef"`. -/
def hexDigitChar (n : Nat) : Char :=
  if n < 10 then Char.ofNat (48 + n) else Char.ofNat (87 + n)

/-- Go's `encoding/json` escaping of one character inside a string literal
(with the default HTML escaping of `Marshal`): quote, backslash, `\n`, `\r`,
`\t` get two-character escapes; other control characters below U+0020 get
`\u00XX`; `<`, `>`, `&` get `<`, `>`, `&`; U+2028 and U+2029
get ` `, ` `; everything else is emitted verbatim. -/
def escChar (c : Char) : List Char :=
  if c = '"' then ['\\', '"']
  else if c = '\\' then ['\\', '\\']
  else if c = '\n' then ['\\', 'n']
  else if c = '\r' then ['\\', 'r']
  else if c = '\t' then ['\\', 't']
  else if c.toNat < 32 then
    ['\\', 'u', '0', '0', hexDigitChar (c.toNat / 16), hexDigitChar (c.toNat % 16)]
  else if c = '<' then ['\\', 'u', '0', '0', '3', 'c']
  else if c = '>' then ['\\', 'u', '0', '0', '3', 'e']
  else if c = '&' then ['\\', 'u', '0', '0', '2', '6']
  else if c.toNat = 0x2028 then ['\\', 'u', '2', '0', '2', '8']
  else if c.toNat = 0x2029 then ['\\', 'u', '2', '0', '2', '9']
  else [c]

/-- Escape every character of a string body, in order. -/
def goQuoteBody : List Char → List Char
  | [] => []
  | c :: cs => escChar c ++ goQuoteBody cs

/-- Go's `encoding/json` marshalling of a string value: a double-quoted,
escaped literal. -/
def goQuote (s : String) : String :=
  String.mk ('"' :: (goQuoteBody s.data ++ ['"']))

/-- One element of the `references` array as laid out by
`json.MarshalIndent(resp, "", "  ")`: an object at nesting depth 3
(six-space indent, eight-space fields). -/
def goRefItemIndent (ref : Reference) : String :=
  "      \x7b\n        \"title\": " ++ goQuote ref.Title ++
  ",\n        \"snippet\": " ++ goQuote ref.Snippet ++
  ",\n        \"url\": " ++ goQuote ref.URL ++ "\n      \x7d"

/-- The comma-separated element list of a non-empty `references` array under
`MarshalIndent`. -/
def goRefItemsIndent : List Reference → String
  | [] => ""
  | [ref] => goRefItemIndent ref
  | ref :: rest => goRefItemIndent ref ++ ",\n" ++ goRefItemsIndent rest

/-- The `references` field value under `MarshalIndent`: Go marshals a nil
slice as `null`, a non-nil empty slice as the compact `[]`, and a non-empty
slice as an indented array closed at depth 2. -/
def goRefsIndent : Option (List Reference) → String
  | none => "null"
  | some [] => "[]"
  | some refs => "[\n" ++ goRefItemsIndent refs ++ "\n    ]"

/-- `json.MarshalIndent(resp, "", "  ")` specialized to the fixed shape of
`FastGPTResponse`: fields in struct order, two-space indentation, a space
after each colon, empty composites kept compact. -/
def goMarshalIndentResp (resp : FastGPTResponse) : String :=
  "\x7b\n  \"meta\": \x7b\n    \"id\": " ++ goQuote resp.Meta.ID ++
  ",\n    \"node\": " ++ goQuote resp.Meta.Node ++
  ",\n    \"ms\": " ++ goItoa resp.Meta.MS ++
  "\n  \x7d,\n  \"data\": \x7b\n    \"output\": " ++ goQuote resp.Data.Output ++
  ",\n    \"tokens\": " ++ goItoa resp.Data.Tokens ++
  ",\n    \"references\": " ++ goRefsIndent resp.Data.References ++
  "\n  \x7d\n\x7d"

/-- One element of the `references` array under compact `json.Marshal`. -/
def goRefItemCompact (ref : Reference) : String :=
  "\x7b\"title\":" ++ goQuote ref.Title ++
  ",\"snippet\":" ++ goQuote ref.Snippet ++
  ",\"url\":" ++ goQuote ref.URL ++ "\x7d"

/-- The comma-separated element list of a `references` array under compact
`json.Marshal`. -/
def goRefItemsCompact : List Reference → String
  | [] => ""
  | [ref] => goRefItemCompact ref
  | ref :: rest => goRefItemCompact ref ++ "," ++ goRefItemsCompact rest

/-- The `references` field value under compact `json.Marshal`. -/
def goRefsCompact : Option (List Reference) → String
  | none => "null"
  | some [] => "[]"
  | some refs => "[" ++ goRefItemsCompact refs ++ "]"

/-- `json.Marshal(resp)` (compact, no indentation) specialized to
`FastGPTResponse`. -/
def goMarshalResp (resp : FastGPTResponse) : String :=
  "\x7b\"meta\":\x7b\"id\":" ++ goQuote resp.Meta.ID ++
  ",\"node\":" ++ goQuote resp.Meta.Node ++
  ",\"ms\":" ++ goItoa resp.Meta.MS ++
  "\x7d,\"data\":\x7b\"output\":" ++ goQuote resp.Data.Output ++
  ",\"tokens\":" ++ goItoa resp.Data.Tokens ++
  ",\"references\":" ++ goRefsCompact resp.Data.References ++
  "\x7d\x7d"

/-- The `(bytes, err)` result of `json.MarshalIndent(resp.Data.Output, "", "  ")`
in the quiet arm of `formatJSON_output`.  Marshalling a plain string value
cannot fail in Go, so the result is always `ok`; indentation does not affect a
scalar, so the bytes are exactly the quoted string. -/
def goMarshalIndentOutputE (resp : FastGPTResponse) : Except String String :=
  .ok (goQuote resp.Data.Output)

/-- The `(bytes, err)` result of `json.MarshalIndent(resp, "", "  ")`.
Marshalling this fixed struct of strings, ints and a `[]Reference` cannot fail
in Go (no unsupported types, no cycles), so the result is always `ok`. -/
def goMarshalIndentRespE (resp : FastGPTResponse) : Except String String :=
  .ok (goMarshalIndentResp resp)

/-- The `(bytes, err)` result of the compact fallback `json.Marshal(resp)`;
total for the same reason as the indented form. -/
def goMarshalRespE (resp : FastGPTResponse) : Except String String :=
  .ok (goMarshalResp resp)

/-- `formatJSON_output` (`main.go` lines 442-461): in quiet mode marshal only
`resp.Data.Output` and wrap a failure; otherwise marshal the full response
with indentation, falling back to compact marshalling on failure, and
surfacing a serialization error only if that also fails.  The returned string
always carries a trailing newline. -/
def formatJSON_output (resp : FastGPTResponse) (config : Config) :
    Except String String :=
  if config.Quiet then
    match goMarshalIndentOutputE resp with
    | .ok jsonBytes => .ok (jsonBytes ++ "\n")
    | .error e => .error ("failed to marshal output to JSON: " ++ e)
  else
    match goMarshalIndentRespE resp with
    | .ok jsonBytes => .ok (jsonBytes ++ "\n")
    | .error _ =>
      match goMarshalRespE resp with
      | .ok jsonBytes => .ok (jsonBytes ++ "\n")
      | .error e => .error ("failed to marshal response to JSON: " ++ e)

/-- `formatOutput` (`main.go` lines 358-367): dispatch on `config.Format`.
The Go constants are `formatJSON = "json"` and `formatMarkdown = "md"`
(`main.go` lines 43-45); any other string, including the canonical `"text"`,
falls to the text renderer, whose result is wrapped with a nil error. -/
def formatOutput (resp : FastGPTResponse) (config : Config)
    (stdoutIsTerminal : Bool) : Except String String :=
  if config.Format = "json" then
    formatJSON_output resp config
  else if config.Format = "md" then
    .ok (formatMarkdown_output resp config)
  else
    .ok (formatText_output resp config stdoutIsTerminal)

/-! A JSON decoder, used to state and settle the claims that the JSON
renderer's output is syntactically valid JSON and decodes to the expected
value.  The decoder is strict: it accepts only well-formed JSON texts (with
numbers restricted to integers, which is all the renderer ever emits), so
acceptance witnesses syntactic validity. -/

/-- JSON value. -/
inductive Json where
  | null
  | bool (b : Bool)
  | str (s : String)
  | num (n : Int)
  | arr (elems : List Json)
  | obj (fields : List (String × Json))

/-- JSON insignificant whitespace. -/
def isWs (c : Char) : Bool := c = ' ' || c = '\n' || c = '\t' || c = '\r'

/-- Drop leading JSON whitespace. -/
def skipWs : List Char → List Char
  | [] => []
  | c :: rest => if isWs c then skipWs rest else c :: rest

/-- Value of a hexadecimal digit. -/
def hexVal (c : Char) : Option Nat :=
  if '0' ≤ c ∧ c ≤ '9' then some (c.toNat - 48)
  else if 'a' ≤ c ∧ c ≤ 'f' then some (c.toNat - 87)
  else if 'A' ≤ c ∧ c ≤ 'F' then some (c.toNat - 55)
  else none

/-- Decoding of a two-character escape sequence after the backslash. -/
def escCode : Char → Option Char
  | '"' => some '"'
  | '\\' => some '\\'
  | '/' => some '/'
  | 'b' => some (Char.ofNat 8)
  | 'f' => some (Char.ofNat 12)
  | 'n' => some '\n'
  | 'r' => some '\r'
  | 't' => some '\t'
  | _ => none

/-- Parse the body of a JSON string literal after the opening quote, up to
and including the closing quote; returns the decoded characters and the
remaining input.  Raw control characters are rejected. -/
def parseStringBody : List Char → Option (List Char × List Char)
  | [] => none
  | '"' :: rest => some ([], rest)
  | '\\' :: rest =>
    match rest with
    | 'u' :: h1 :: h2 :: h3 :: h4 :: rest4 => do
      let a ← hexVal h1
      let b ← hexVal h2
      let c ← hexVal h3
      let d ← hexVal h4
      let (cs, r) ← parseStringBody rest4
      pure (Char.ofNat (4096 * a + 256 * b + 16 * c + d) :: cs, r)
    | e :: rest2 => do
      let c ← escCode e
      let (cs, r) ← parseStringBody rest2
      pure (c :: cs, r)
    | [] => none
  | c :: rest =>
    if c.toNat < 32 then none
    else
      match parseStringBody rest with
      | some (cs, r) => some (c :: cs, r)
      | none => none

/-- Value of a decimal digit. -/
def digitVal (c : Char) : Option Nat :=
  if '0' ≤ c ∧ c ≤ '9' then some (c.toNat - 48) else none

/-- Consume a run of decimal digits into an accumulator. -/
def parseNatAcc : Nat → List Char → Nat × List Char
  | acc, [] => (acc, [])
  | acc, c :: rest =>
    match digitVal c with
    | some d => parseNatAcc (10 * acc + d) rest
    | none => (acc, c :: rest)

/-- Parse a JSON natural-number literal: `0`, or a nonzero digit followed by
any digits (leading zeros rejected by the grammar). -/
def parseNumberNat : List Char → Option (Nat × List Char)
  | [] => none
  | '0' :: rest => some (0, rest)
  | c :: rest =>
    match digitVal c with
    | some d => some (parseNatAcc d rest)
    | none => none

/-- Parse a JSON integer literal with optional leading minus sign. -/
def parseNumber : List Char → Option (Int × List Char)
  | '-' :: rest => (parseNumberNat rest).map (fun p => (-(p.1 : Int), p.2))
  | l => (parseNumberNat l).map (fun p => ((p.1 : Int), p.2))

mutual

/-- Parse one JSON value after skipping leading whitespace.  The fuel
argument bounds the recursion; every recursive call decreases it. -/
def parseValue : Nat → List Char → Option (Json × List Char)
  | 0, _ => none
  | fuel+1, l =>
    match skipWs l with
    | '"' :: rest =>
      match parseStringBody rest with
      | some (cs, r) => some (.str (String.mk cs), r)
      | none => none
    | 'n' :: 'u' :: 'l' :: 'l' :: rest => some (.null, rest)
    | 't' :: 'r' :: 'u' :: 'e' :: rest => some (.bool true, rest)
    | 'f' :: 'a' :: 'l' :: 's' :: 'e' :: rest => some (.bool false, rest)
    | '[' :: rest =>
      match skipWs rest with
      | ']' :: rest2 => some (.arr [], rest2)
      | l2 =>
        match parseItems fuel l2 with
        | some (xs, r) => some (.arr xs, r)
        | none => none
    | '\x7b' :: rest =>
      match skipWs rest with
      | '\x7d' :: rest2 => some (.obj [], rest2)
      | l2 =>
        match parseMembers fuel l2 with
        | some (fs, r) => some (.obj fs, r)
        | none => none
    | l2 =>
      match parseNumber l2 with
      | some (n, r) => some (.num n, r)
      | none => none

/-- Parse the elements of a non-empty JSON array, including the closing
bracket. -/
def parseItems : Nat → List Char → Option (List Json × List Char)
  | 0, _ => none
  | fuel+1, l =>
    match parseValue fuel l with
    | some (j, r) =>
      match skipWs r with
      | ',' :: rest =>
        match parseItems fuel rest with
        | some (xs, r2) => some (j :: xs, r2)
        | none => none
      | ']' :: rest => some ([j], rest)
      | _ => none
    | none => none

/-- Parse the members of a non-empty JSON object, including the closing
brace. -/
def parseMembers : Nat → List Char → Option (List (String × Json) × List Char)
  | 0, _ => none
  | fuel+1, l =>
    match skipWs l with
    | '"' :: rest =>
      match parseStringBody rest with
      | some (cs, r) =>
        match skipWs r with
        | ':' :: rest2 =>
          match parseValue fuel rest2 with
          | some (j, r2) =>
            match skipWs r2 with
            | ',' :: rest3 =>
              match parseMembers fuel rest3 with
              | some (fs, r3) => some ((String.mk cs, j) :: fs, r3)
              | none => none
            | '\x7d' :: rest3 => some ([(String.mk cs, j)], rest3)
            | _ => none
          | none => none
        | _ => none
      | none => none
    | _ => none

end

/-- Decode a JSON text: parse one value (with ample fuel) and require that
only whitespace remains. -/
def jsonDecode (s : String) : Option Json :=
  match parseValue (s.data.length + 1) s.data with
  | some (j, rest) => if skipWs rest = [] then some j else none
  | none => none

/-- Association lookup among the fields of a decoded object. -/
def fieldLookup : List (String × Json) → String → Option Json
  | [], _ => none
  | (k, v) :: rest, key => if k = key then some v else fieldLookup rest key

/-- The value of a field of a decoded JSON object. -/
def Json.field : Json → String → Option Json
  | .obj fs, key => fieldLookup fs key
  | _, _ => none

/-- The JSON value that `FastGPTResponse`'s `references` field denotes:
`null` for a nil slice, else the array of reference objects. -/
def refToJson (ref : Reference) : Json :=
  .obj [("title", .str ref.Title), ("snippet", .str ref.Snippet), ("url", .str ref.URL)]

/-- The `references` field as a JSON value. -/
def refsToJson : Option (List Reference) → Json
  | none => .null
  | some refs => .arr (refs.map refToJson)

/-- The JSON value denoted by a full `FastGPTResponse` under Go's
`encoding/json` field layout. -/
def respToJson (resp : FastGPTResponse) : Json :=
  .obj
    [("meta", .obj
      [("id", .str resp.Meta.ID),
       ("node", .str resp.Meta.Node),
       ("ms", .num resp.Meta.MS)]),
     ("data", .obj
      [("output", .str resp.Data.Output),
       ("tokens", .num resp.Data.Tokens),
       ("references", refsToJson resp.Data.References)])]

/-- The input does not begin with a decimal digit (so a digit run parsed
right before it stops there). -/
def headNoDigit : List Char → Prop
  | [] => True
  | c :: _ => digitVal c = none

/-- Decoder fuel sufficient for the `references` field value (one step for
`null` or `[]`, seven per element plus two for a non-empty array). -/
def refsFuel : Option (List Reference) → Nat
  | none => 1
  | some [] => 1
  | some refs => 7 * refs.length + 2

/-- Specification-side view of the minimal decimal digit list, as a
well-founded recursion convenient for induction (empty for zero). -/
def natDigitsRec (n : Nat) : List Char :=
  if h : n = 0 then []
  else natDigitsRec (n / 10) ++ [digitChar (n % 10)]
decreasing_by exact Nat.div_lt_self (Nat.pos_of_ne_zero h) (by omega)

/-! Sample inputs used by the witness theorems. -/

/-- A sample response with one reference carrying a snippet. -/
def wResp : FastGPTResponse :=
  ⟨⟨"wid", "wnode", 5⟩, ⟨"Answer", 9, some [⟨"Src", "snip", "http://x"⟩]⟩⟩

/-- A sample configuration; format, heading and quiet vary per witness. -/
def wCfg (fmt : String) (heading quiet : Bool) : Config :=
  ⟨"key", "greeting", fmt, 30, heading, quiet, "never", false, false⟩

/-! Helper lemmas. -/

/-- The reference at zero-based index `i` of the loop started at index `k` is
rendered inside the loop's output as a line numbered `k + i + 1`. -/
theorem textRefLoop_get (u : Bool) :
    ∀ (refs : List Reference) (k i : Nat) (r : Reference),
      refs.get? i = some r →
      ∃ pre suf,
        textRefLoop u k refs = pre ++ textRefLine u (k + i + 1) r ++ suf := by
  intro refs
  induction refs with
  | nil => intro k i r h; simp at h
  | cons a rest ih =>
    intro k i r h
    cases i with
    | zero =>
      simp at h
      refine ⟨"", textRefLoop u (k + 1) rest, ?_⟩
      simp [textRefLoop, h]
    | succ i =>
      have h' : rest.get? i = some r := by simpa using h
      obtain ⟨pre, suf, hEq⟩ := ih (k + 1) i r h'
      refine ⟨textRefLine u (k + 1) a ++ pre, suf, ?_⟩
      have hn : k + 1 + i + 1 = k + (i + 1) + 1 := by omega
      simp [textRefLoop, hEq, hn, String.append_assoc]

/-! JSON round-trip lemmas: the decoder recovers exactly the value the
Go marshaller serialized. -/

theorem skipWs_not_ws (c : Char) (l : List Char) (h : isWs c = false) :
    skipWs (c :: l) = c :: l := by
  simp [skipWs, h]

theorem skipWs_idem (l : List Char) : skipWs (skipWs l) = skipWs l := by
  induction l with
  | nil => rfl
  | cons c l ih =>
    by_cases h : isWs c = true
    · simp [skipWs, h, ih]
    · simp [skipWs, h]

theorem parseValue_skipWs (fuel : Nat) (l : List Char) :
    parseValue fuel (skipWs l) = parseValue fuel l := by
  cases fuel with
  | zero => rfl
  | succ f => rw [parseValue, parseValue, skipWs_idem]

theorem parseItems_skipWs (fuel : Nat) (l : List Char) :
    parseItems fuel (skipWs l) = parseItems fuel l := by
  cases fuel with
  | zero => rfl
  | succ f => rw [parseItems, parseItems, parseValue_skipWs]

theorem parseValue_ws_cons (fuel : Nat) (c : Char) (l : List Char)
    (h : isWs c = true) : parseValue fuel (c :: l) = parseValue fuel l := by
  have h1 : skipWs (c :: l) = skipWs l := by simp [skipWs, h]
  rw [← parseValue_skipWs fuel (c :: l), h1, parseValue_skipWs]

theorem parseItems_ws_cons (fuel : Nat) (c : Char) (l : List Char)
    (h : isWs c = true) : parseItems fuel (c :: l) = parseItems fuel l := by
  have h1 : skipWs (c :: l) = skipWs l := by simp [skipWs, h]
  rw [← parseItems_skipWs fuel (c :: l), h1, parseItems_skipWs]

theorem parseStringBody_cons_plain (c : Char) (l : List Char)
    (h1 : c ≠ '"') (h2 : c ≠ '\\') (h3 : 32 ≤ c.toNat) :
    parseStringBody (c :: l) =
      match parseStringBody l with
      | some (cs, r) => some (c :: cs, r)
      | none => none := by
  rw [parseStringBody.eq_def]
  split
  · rename_i heq; simp at heq
  · rename_i heq; rw [List.cons.injEq] at heq; exact absurd heq.1 h1
  · rename_i heq; rw [List.cons.injEq] at heq; exact absurd heq.1 h2
  · rename_i c' rest heq
    rw [List.cons.injEq] at heq
    obtain ⟨rfl, rfl⟩ := heq
    rw [if_neg (by omega)]

theorem hexVal_hexDigitChar (n : Nat) (h : n < 16) :
    hexVal (hexDigitChar n) = some n := by
  interval_cases n <;> decide

/-- Decoding inverts Go's per-character escaping. -/
theorem parseStringBody_escChar (c : Char) (l : List Char) :
    parseStringBody (escChar c ++ l) =
      match parseStringBody l with
      | some (cs, r) => some (c :: cs, r)
      | none => none := by
  by_cases h1 : c = '"'
  · subst h1
    cases hp : parseStringBody l with
    | none => simp [escChar, parseStringBody, escCode, hp]
    | some p => simp [escChar, parseStringBody, escCode, hp]
  by_cases h2 : c = '\\'
  · subst h2
    cases hp : parseStringBody l with
    | none => simp [escChar, parseStringBody, escCode, hp]
    | some p => simp [escChar, parseStringBody, escCode, hp]
  by_cases h3 : c = '\n'
  · subst h3
    cases hp : parseStringBody l with
    | none => simp [escChar, parseStringBody, escCode, hp]
    | some p => simp [escChar, parseStringBody, escCode, hp]
  by_cases h4 : c = '\r'
  · subst h4
    cases hp : parseStringBody l with
    | none => simp [escChar, parseStringBody, escCode, hp]
    | some p => simp [escChar, parseStringBody, escCode, hp]
  by_cases h5 : c = '\t'
  · subst h5
    cases hp : parseStringBody l with
    | none => simp [escChar, parseStringBody, escCode, hp]
    | some p => simp [escChar, parseStringBody, escCode, hp]
  by_cases h6 : c.toNat < 32
  · have hesc : escChar c =
        ['\\', 'u', '0', '0', hexDigitChar (c.toNat / 16), hexDigitChar (c.toNat % 16)] := by
      rw [escChar, if_neg h1, if_neg h2, if_neg h3, if_neg h4, if_neg h5, if_pos h6]
    have hhi : hexVal (hexDigitChar (c.toNat / 16)) = some (c.toNat / 16) :=
      hexVal_hexDigitChar _ (by omega)
    have hlo : hexVal (hexDigitChar (c.toNat % 16)) = some (c.toNat % 16) :=
      hexVal_hexDigitChar _ (by omega)
    have h0 : hexVal '0' = some 0 := by decide
    have hsum : 16 * (c.toNat / 16) + c.toNat % 16 = c.toNat := by omega
    have hsum' : c.toNat / 16 * 16 + c.toNat % 16 = c.toNat := by omega
    cases hp : parseStringBody l with
    | none =>
      simp [hesc, parseStringBody, hhi, hlo, h0, hp]
    | some p =>
      simp [hesc, parseStringBody, hhi, hlo, h0, hp, hsum, hsum', Char.ofNat_toNat]
  by_cases h7 : c = '<'
  · subst h7
    cases hp : parseStringBody l with
    | none => simp [escChar, parseStringBody, hexVal, hp]
    | some p => simp [escChar, parseStringBody, hexVal, hp]
  by_cases h8 : c = '>'
  · subst h8
    cases hp : parseStringBody l with
    | none => simp [escChar, parseStringBody, hexVal, hp]
    | some p => simp [escChar, parseStringBody, hexVal, hp]
  by_cases h9 : c = '&'
  · subst h9
    cases hp : parseStringBody l with
    | none => simp [escChar, parseStringBody, hexVal, hp]
    | some p => simp [escChar, parseStringBody, hexVal, hp]
  by_cases h10 : c.toNat = 0x2028
  · have hesc : escChar c = ['\\', 'u', '2', '0', '2', '8'] := by
      rw [escChar, if_neg h1, if_neg h2, if_neg h3, if_neg h4, if_neg h5,
        if_neg h6, if_neg h7, if_neg h8, if_neg h9, if_pos h10]
    have hc : c = Char.ofNat 8232 := by
      rw [show (8232 : Nat) = c.toNat from h10.symm, Char.ofNat_toNat]
    cases hp : parseStringBody l with
    | none => simp [hesc, parseStringBody, hexVal, hp]
    | some p =>
      simp [hesc, parseStringBody, hexVal, hp]
      rw [hc]
  by_cases h11 : c.toNat = 0x2029
  · have hesc : escChar c = ['\\', 'u', '2', '0', '2', '9'] := by
      rw [escChar, if_neg h1, if_neg h2, if_neg h3, if_neg h4, if_neg h5,
        if_neg h6, if_neg h7, if_neg h8, if_neg h9, if_neg h10, if_pos h11]
    have hc : c = Char.ofNat 8233 := by
      rw [show (8233 : Nat) = c.toNat from h11.symm, Char.ofNat_toNat]
    cases hp : parseStringBody l with
    | none => simp [hesc, parseStringBody, hexVal, hp]
    | some p =>
      simp [hesc, parseStringBody, hexVal, hp]
      rw [hc]
  · have hesc : escChar c = [c] := by
      rw [escChar, if_neg h1, if_neg h2, if_neg h3, if_neg h4, if_neg h5,
        if_neg h6, if_neg h7, if_neg h8, if_neg h9, if_neg h10, if_neg h11]
    rw [hesc, List.singleton_append,
      parseStringBody_cons_plain c l h1 h2 (by omega)]

/-- Decoding inverts Go's escaping of a whole string body. -/
theorem parseStringBody_goQuoteBody (cs : List Char) (l : List Char) :
    parseStringBody (goQuoteBody cs ++ ('"' :: l)) = some (cs, l) := by
  induction cs with
  | nil => simp [goQuoteBody, parseStringBody]
  | cons c cs ih =>
    rw [goQuoteBody, List.append_assoc, parseStringBody_escChar, ih]

/-- Decoding inverts `goQuote`: a marshalled string parses back to the
original string value. -/
theorem parseValue_goQuote (f : Nat) (s : String) (l : List Char) :
    parseValue (f + 1) ((goQuote s).data ++ l) = some (.str s, l) := by
  have hdata : (goQuote s).data = '"' :: (goQuoteBody s.data ++ ['"']) := rfl
  rw [hdata]
  have hshape : ('"' :: (goQuoteBody s.data ++ ['"'])) ++ l =
      '"' :: (goQuoteBody s.data ++ ('"' :: l)) := by
    simp [List.append_assoc]
  rw [hshape, parseValue]
  rw [skipWs_not_ws '"' _ (by decide)]
  simp [parseStringBody_goQuoteBody]

theorem digitVal_digitChar (d : Nat) (h : d < 10) :
    digitVal (digitChar d) = some d := by
  interval_cases d <;> decide

theorem digitChar_toNat (d : Nat) (h : d < 10) :
    (digitChar d).toNat = 48 + d := by
  interval_cases d <;> decide

theorem natDigitsAux_eq (fuel : Nat) :
    ∀ n acc, n ≤ fuel → natDigitsAux fuel n acc = natDigitsRec n ++ acc := by
  induction fuel with
  | zero =>
    intro n acc h
    have hn : n = 0 := by omega
    subst hn
    rw [natDigitsAux, natDigitsRec]
    simp
  | succ fuel ih =>
    intro n acc h
    by_cases hn : n = 0
    · subst hn
      rw [natDigitsAux, natDigitsRec]
      simp
    · rw [natDigitsAux, if_neg hn, natDigitsRec, dif_neg hn,
        ih (n / 10) _ (by omega), List.append_assoc]
      simp

theorem natDigits_eq_rec (n : Nat) (h : 0 < n) :
    natDigits n = natDigitsRec n := by
  rw [natDigits, if_neg (by omega), natDigitsAux_eq n n [] (le_refl n),
    List.append_nil]

theorem parseNatAcc_stop (a : Nat) (rest : List Char) (h : headNoDigit rest) :
    parseNatAcc a rest = (a, rest) := by
  cases rest with
  | nil => rfl
  | cons c l =>
    rw [parseNatAcc]
    rw [show digitVal c = none from h]

theorem parseNatAcc_digitsRec (n : Nat) :
    ∀ acc rest, parseNatAcc acc (natDigitsRec n ++ rest) =
      parseNatAcc (acc * 10 ^ (natDigitsRec n).length + n) rest := by
  induction n using Nat.strong_induction_on with
  | _ n ih =>
    intro acc rest
    by_cases hn : n = 0
    · subst hn
      rw [natDigitsRec]
      simp
    · rw [natDigitsRec, dif_neg hn, List.append_assoc, List.singleton_append,
        ih (n / 10) (Nat.div_lt_self (by omega) (by omega)) acc
          (digitChar (n % 10) :: rest)]
      rw [parseNatAcc, digitVal_digitChar (n % 10) (by omega)]
      show parseNatAcc
          (10 * (acc * 10 ^ (natDigitsRec (n / 10)).length + n / 10) + n % 10) rest =
        parseNatAcc
          (acc * 10 ^ (natDigitsRec (n / 10) ++ [digitChar (n % 10)]).length + n) rest
      have hlen : (natDigitsRec (n / 10) ++ [digitChar (n % 10)]).length =
          (natDigitsRec (n / 10)).length + 1 := by simp
      rw [hlen]
      congr 1
      have hpow : (10 : Nat) ^ ((natDigitsRec (n / 10)).length + 1) =
          10 ^ (natDigitsRec (n / 10)).length * 10 := pow_succ 10 _
      rw [hpow, ← Nat.mul_assoc]
      generalize acc * 10 ^ (natDigitsRec (n / 10)).length = A
      omega

theorem natDigitsRec_head (n : Nat) (h : 0 < n) :
    ∃ d ds, natDigitsRec n = digitChar d :: ds ∧ 1 ≤ d ∧ d ≤ 9 := by
  induction n using Nat.strong_induction_on with
  | _ n ih =>
    by_cases hsmall : n < 10
    · refine ⟨n, [], ?_, by omega, by omega⟩
      rw [natDigitsRec, dif_neg (by omega), natDigitsRec,
        dif_pos (by omega : n / 10 = 0)]
      rw [Nat.mod_eq_of_lt hsmall]
      rfl
    · obtain ⟨d, ds, hEq, h1, h9⟩ :=
        ih (n / 10) (Nat.div_lt_self (by omega) (by omega))
          (by omega : 0 < n / 10)
      refine ⟨d, ds ++ [digitChar (n % 10)], ?_, h1, h9⟩
      rw [natDigitsRec, dif_neg (by omega), hEq]
      simp

theorem parseNumberNat_natDigits (n : Nat) (rest : List Char)
    (h : headNoDigit rest) :
    parseNumberNat (natDigits n ++ rest) = some (n, rest) := by
  by_cases hn : n = 0
  · subst hn
    rw [show natDigits 0 = ['0'] from rfl, List.singleton_append, parseNumberNat]
  · obtain ⟨d, ds, hEq, h1, h9⟩ := natDigitsRec_head n (by omega)
    rw [natDigits_eq_rec n (by omega), hEq, List.cons_append]
    have hstep : parseNumberNat (digitChar d :: (ds ++ rest)) =
        some (parseNatAcc d (ds ++ rest)) := by
      rw [parseNumberNat.eq_def]
      split
      · rename_i heq; simp at heq
      · rename_i heq
        rw [List.cons.injEq] at heq
        have := congrArg Char.toNat heq.1
        rw [digitChar_toNat d (by omega)] at this
        simp at this
        omega
      · rename_i c' rest' heq
        rw [List.cons.injEq] at heq
        obtain ⟨hc, hr⟩ := heq
        rw [← hc, ← hr, digitVal_digitChar d (by omega)]
    rw [hstep]
    have hacc : parseNatAcc d (ds ++ rest) =
        parseNatAcc 0 (natDigitsRec n ++ rest) := by
      rw [hEq, List.cons_append, parseNatAcc,
        digitVal_digitChar d (by omega)]
      simp
    rw [hacc, parseNatAcc_digitsRec n 0 rest]
    simp [parseNatAcc_stop _ rest h]

theorem parseNumber_goItoa (i : Int) (rest : List Char) (h : headNoDigit rest) :
    parseNumber ((goItoa i).data ++ rest) = some (i, rest) := by
  by_cases hneg : i < 0
  · have hdata : (goItoa i).data = '-' :: (natDigits i.natAbs ++ rest).take 0 ++
        (natDigits i.natAbs) := by
      rw [goItoa, if_pos hneg]
      rfl
    rw [goItoa, if_pos hneg]
    have hsplit : ("-" ++ natToDec i.natAbs).data ++ rest =
        '-' :: (natDigits i.natAbs ++ rest) := by
      rw [String.data_append]
      rfl
    rw [hsplit, parseNumber, parseNumberNat_natDigits i.natAbs rest h]
    have habs : ((i.natAbs : Int)) = -i := Int.ofNat_natAbs_of_nonpos (by omega)
    simp [habs]
  · have hdata : (goItoa i).data ++ rest = natDigits i.natAbs ++ rest := by
      rw [goItoa, if_neg hneg]
      rfl
    rw [hdata]
    have hshape : ∃ c0 cs0, natDigits i.natAbs ++ rest = c0 :: cs0 ∧
        ∃ d, d ≤ 9 ∧ c0 = digitChar d := by
      by_cases hz : i.natAbs = 0
      · rw [hz]
        exact ⟨'0', rest, rfl, 0, by omega, rfl⟩
      · obtain ⟨d, ds, hEq, h1, h9⟩ := natDigitsRec_head i.natAbs (by omega)
        rw [natDigits_eq_rec i.natAbs (by omega), hEq]
        exact ⟨digitChar d, ds ++ rest, by simp, d, by omega, rfl⟩
    obtain ⟨c0, cs0, hEq, d, hd9, hcd⟩ := hshape
    have hstep : parseNumber (natDigits i.natAbs ++ rest) =
        (parseNumberNat (natDigits i.natAbs ++ rest)).map
          (fun p => ((p.1 : Int), p.2)) := by
      rw [hEq, parseNumber.eq_def]
      split
      · rename_i heq
        rw [List.cons.injEq] at heq
        have := congrArg Char.toNat heq.1
        rw [hcd, digitChar_toNat d (by omega)] at this
        simp at this
        omega
      · rfl
    rw [hstep, parseNumberNat_natDigits i.natAbs rest h]
    have habs : ((i.natAbs : Int)) = i := Int.natAbs_of_nonneg (by omega)
    simp [habs]

theorem goItoa_head (i : Int) :
    ∃ c0 cs0, (goItoa i).data = c0 :: cs0 ∧
      (c0 = '-' ∨ ∃ d, d ≤ 9 ∧ c0 = digitChar d) := by
  by_cases hneg : i < 0
  · refine ⟨'-', natDigits i.natAbs, ?_, Or.inl rfl⟩
    rw [goItoa, if_pos hneg]
    rfl
  · by_cases hz : i.natAbs = 0
    · refine ⟨'0', [], ?_, Or.inr ⟨0, by omega, rfl⟩⟩
      rw [goItoa, if_neg hneg, hz]
      rfl
    · obtain ⟨d, ds, hEq, h1, h9⟩ := natDigitsRec_head i.natAbs (by omega)
      refine ⟨digitChar d, ds, ?_, Or.inr ⟨d, by omega, rfl⟩⟩
      rw [goItoa, if_neg hneg]
      show (natToDec i.natAbs).data = _
      rw [natToDec, natDigits_eq_rec i.natAbs (by omega), hEq]

/-- A marshalled integer followed by a non-digit parses back to the original
integer value. -/
theorem parseValue_goItoa (f : Nat) (i : Int) (l : List Char)
    (h : headNoDigit l) :
    parseValue (f + 1) ((goItoa i).data ++ l) = some (.num i, l) := by
  obtain ⟨c0, cs0, hdata, hshape⟩ := goItoa_head i
  have hnum : c0.toNat = 45 ∨ (48 ≤ c0.toNat ∧ c0.toNat ≤ 57) := by
    rcases hshape with hc | ⟨d, hd, hc⟩
    · left; rw [hc]; rfl
    · right; rw [hc, digitChar_toNat d (by omega)]; omega
  have hEq : (goItoa i).data ++ l = c0 :: (cs0 ++ l) := by
    rw [hdata]; rfl
  have hsp : c0 ≠ ' ' := by intro hh; rw [hh] at hnum; revert hnum; decide
  have hnl : c0 ≠ '\n' := by intro hh; rw [hh] at hnum; revert hnum; decide
  have htb : c0 ≠ '\t' := by intro hh; rw [hh] at hnum; revert hnum; decide
  have hcr : c0 ≠ '\r' := by intro hh; rw [hh] at hnum; revert hnum; decide
  have hws : isWs c0 = false := by
    rw [isWs]
    simp [hsp, hnl, htb, hcr]
  have hpn : parseNumber (c0 :: (cs0 ++ l)) = some (i, l) := by
    rw [← hEq]
    exact parseNumber_goItoa i l h
  rw [parseValue, hEq, skipWs_not_ws c0 _ hws]
  split
  · rename_i heq
    rw [List.cons.injEq] at heq
    rw [heq.1] at hnum; exact absurd hnum (by decide)
  · rename_i heq
    rw [List.cons.injEq] at heq
    rw [heq.1] at hnum; exact absurd hnum (by decide)
  · rename_i heq
    rw [List.cons.injEq] at heq
    rw [heq.1] at hnum; exact absurd hnum (by decide)
  · rename_i heq
    rw [List.cons.injEq] at heq
    rw [heq.1] at hnum; exact absurd hnum (by decide)
  · rename_i heq
    rw [List.cons.injEq] at heq
    rw [heq.1] at hnum; exact absurd hnum (by decide)
  · rename_i heq
    rw [List.cons.injEq] at heq
    rw [heq.1] at hnum; exact absurd hnum (by decide)
  · rw [hpn]

/-- One indented `references` element parses back to its reference object. -/
theorem parseValue_refItem (f : Nat) (ref : Reference) (l : List Char) :
    parseValue (f + 5) ((goRefItemIndent ref).data ++ l) =
      some (refToJson ref, l) := by
  show parseValue ((f + 4) + 1) _ = _
  simp only [goRefItemIndent, String.data_append, String.data, List.cons_append,
    List.nil_append, List.append_assoc]
  rw [parseValue]
  simp [skipWs, isWs]
  rw [parseMembers]
  simp [parseStringBody, skipWs, isWs, List.append_assoc]
  rw [parseValue_ws_cons (f + 3) ' ' _ (by decide)]
  rw [show (f + 3 : Nat) = (f + 2) + 1 from rfl, parseValue_goQuote]
  simp [skipWs, isWs]
  rw [parseMembers]
  simp [parseStringBody, skipWs, isWs, List.append_assoc]
  rw [parseValue_ws_cons (f + 2) ' ' _ (by decide)]
  rw [show (f + 2 : Nat) = (f + 1) + 1 from rfl, parseValue_goQuote]
  simp [skipWs, isWs]
  rw [parseMembers]
  simp [parseStringBody, skipWs, isWs, List.append_assoc]
  rw [parseValue_ws_cons (f + 1) ' ' _ (by decide)]
  rw [parseValue_goQuote]
  simp [skipWs, isWs, refToJson]

/-- The element list of a non-empty indented `references` array, followed by
its closing bracket, parses back to the mapped reference objects. -/
theorem parseItems_refs (refs : List Reference) :
    ∀ f l, refs ≠ [] →
      parseItems (f + 7 * refs.length)
        ((goRefItemsIndent refs).data ++ ("\n    ]").data ++ l) =
      some (refs.map refToJson, l) := by
  induction refs with
  | nil => intro f l h; exact absurd rfl h
  | cons r rs ih =>
    intro f l _
    cases rs with
    | nil =>
      show parseItems ((f + 6) + 1) _ = _
      rw [parseItems]
      rw [goRefItemsIndent]
      rw [show (f + 6 : Nat) = (f + 1) + 5 from rfl, List.append_assoc,
        parseValue_refItem]
      simp [skipWs, isWs]
    | cons r2 rs2 =>
      show parseItems ((f + 7 * (r2 :: rs2).length + 6) + 1) _ = _
      rw [parseItems]
      rw [show goRefItemsIndent (r :: r2 :: rs2) =
        goRefItemIndent r ++ ",\n" ++ goRefItemsIndent (r2 :: rs2) from rfl]
      simp only [String.data_append, List.append_assoc]
      rw [show (f + 7 * (r2 :: rs2).length + 6 : Nat) =
        (f + 7 * (r2 :: rs2).length + 1) + 5 from by omega, parseValue_refItem]
      simp only [String.data, List.cons_append, List.nil_append]
      simp [skipWs, isWs]
      rw [parseItems_ws_cons _ '\n' _ (by decide)]
      have harr : (goRefItemsIndent (r2 :: rs2)).data ++
          '\n' :: ' ' :: ' ' :: ' ' :: ' ' :: ']' :: l =
          (goRefItemsIndent (r2 :: rs2)).data ++ ("\n    ]").data ++ l := by
        simp
      rw [harr]
      rw [show (f + 7 * (rs2.length + 1) + 1 + 5 : Nat) =
        (f + 6) + 7 * (r2 :: rs2).length from by simp; omega]
      rw [ih (f + 6) l (by simp)]
      simp

/-- A non-empty element list of the `references` array begins with the
six-space indent and the opening brace of its first element. -/
theorem goRefItemsIndent_factor (r : Reference) (rs : List Reference) :
    ∃ t : String, goRefItemsIndent (r :: rs) = "      \x7b" ++ t := by
  have hitem : ∃ t : String, goRefItemIndent r = "      \x7b" ++ t := by
    refine ⟨"\n        \"title\": " ++ goQuote r.Title ++
      ",\n        \"snippet\": " ++ goQuote r.Snippet ++
      ",\n        \"url\": " ++ goQuote r.URL ++ "\n      \x7d", ?_⟩
    rw [goRefItemIndent]
    apply String.ext
    simp [String.data_append]
  obtain ⟨t, htm⟩ := hitem
  cases rs with
  | nil =>
    exact ⟨t, by rw [show goRefItemsIndent [r] = goRefItemIndent r from rfl, htm]⟩
  | cons r2 rs2 =>
    refine ⟨t ++ ",\n" ++ goRefItemsIndent (r2 :: rs2), ?_⟩
    rw [show goRefItemsIndent (r :: r2 :: rs2) =
      goRefItemIndent r ++ ",\n" ++ goRefItemsIndent (r2 :: rs2) from rfl, htm]
    simp [String.append_assoc]

/-- The `references` field value parses back to `null` for a nil slice and
to the element array otherwise. -/
theorem parseValue_refsIndent (f : Nat) (orefs : Option (List Reference))
    (l : List Char) :
    parseValue (f + refsFuel orefs) ((goRefsIndent orefs).data ++ l) =
      some (refsToJson orefs, l) := by
  cases orefs with
  | none =>
    show parseValue (f + 1) _ = _
    rw [parseValue, goRefsIndent]
    simp [skipWs, isWs, refsToJson]
  | some refs =>
  cases refs with
  | nil =>
    show parseValue (f + 1) _ = _
    rw [parseValue, goRefsIndent]
    simp [skipWs, isWs, refsToJson]
  | cons r rs =>
    show parseValue ((f + 7 * (r :: rs).length + 1) + 1) _ = _
    obtain ⟨t, ht⟩ := goRefItemsIndent_factor r rs
    have hitems := parseItems_refs (r :: rs) (f + 1) l (by simp)
    rw [ht] at hitems
    simp only [String.data_append, String.data, List.cons_append, List.nil_append,
      List.append_assoc] at hitems
    rw [parseItems_ws_cons _ ' ' _ (by decide), parseItems_ws_cons _ ' ' _ (by decide),
      parseItems_ws_cons _ ' ' _ (by decide), parseItems_ws_cons _ ' ' _ (by decide),
      parseItems_ws_cons _ ' ' _ (by decide),
      parseItems_ws_cons _ ' ' _ (by decide)] at hitems
    rw [parseValue]
    rw [show goRefsIndent (some (r :: rs)) =
      "[\n" ++ goRefItemsIndent (r :: rs) ++ "\n    ]" from rfl, ht]
    simp only [String.data_append, String.data, List.cons_append, List.nil_append,
      List.append_assoc]
    simp [skipWs, isWs]
    rw [show (f + 7 * (rs.length + 1) + 1 : Nat) =
      (f + 1) + 7 * (r :: rs).length from by simp; omega]
    rw [hitems]
    simp [refsToJson]

/-- The members of the marshalled `meta` object parse back to the three
fields in struct order. -/
theorem parseMembers_meta (f : Nat) (idS nodeS : String) (ms : Int)
    (l : List Char) :
    parseMembers (f + 4)
      (("\"id\": ").data ++ (goQuote idS).data ++ (",\n    \"node\": ").data ++
        (goQuote nodeS).data ++ (",\n    \"ms\": ").data ++ (goItoa ms).data ++
        ("\n  \x7d").data ++ l) =
      some ([("id", .str idS), ("node", .str nodeS), ("ms", .num ms)], l) := by
  show parseMembers ((f + 3) + 1) _ = _
  rw [parseMembers]
  simp only [String.data, List.cons_append, List.nil_append]
  rw [skipWs_not_ws '"' _ (by decide)]
  simp [parseStringBody, skipWs, isWs, List.append_assoc]
  rw [parseValue_ws_cons (f + 3) ' ' _ (by decide)]
  rw [show (f + 3 : Nat) = (f + 2) + 1 from rfl, parseValue_goQuote]
  simp [skipWs, isWs]
  rw [parseMembers]
  simp [parseStringBody, skipWs, isWs, List.append_assoc]
  rw [parseValue_ws_cons (f + 2) ' ' _ (by decide)]
  rw [show (f + 2 : Nat) = (f + 1) + 1 from rfl, parseValue_goQuote]
  simp [skipWs, isWs]
  rw [parseMembers]
  simp [parseStringBody, skipWs, isWs, List.append_assoc]
  rw [parseValue_ws_cons (f + 1) ' ' _ (by decide)]
  rw [parseValue_goItoa f ms _ (by exact rfl)]
  simp [skipWs, isWs]

/-- The marshalled `meta` object parses back to its JSON object value. -/
theorem parseValue_metaObj (f : Nat) (idS nodeS : String) (ms : Int)
    (l : List Char) :
    parseValue (f + 5)
      (("\x7b\n    \"id\": ").data ++ (goQuote idS).data ++
        (",\n    \"node\": ").data ++ (goQuote nodeS).data ++
        (",\n    \"ms\": ").data ++ (goItoa ms).data ++
        ("\n  \x7d").data ++ l) =
      some (.obj [("id", .str idS), ("node", .str nodeS), ("ms", .num ms)], l) := by
  show parseValue ((f + 4) + 1) _ = _
  have hm := parseMembers_meta f idS nodeS ms l
  simp only [String.data_append, String.data, List.cons_append, List.nil_append,
    List.append_assoc] at hm
  rw [parseValue]
  simp only [String.data_append, String.data, List.cons_append, List.nil_append,
    List.append_assoc]
  simp [skipWs, isWs]
  rw [hm]

/-- The members of the marshalled `data` object parse back to the three
fields in struct order, with the `references` value decoded per slice
shape. -/
theorem parseMembers_data (f : Nat) (outS : String) (tok : Int)
    (orefs : Option (List Reference)) (l : List Char) :
    parseMembers (f + refsFuel orefs + 3)
      (("\"output\": ").data ++ (goQuote outS).data ++
        (",\n    \"tokens\": ").data ++ (goItoa tok).data ++
        (",\n    \"references\": ").data ++ (goRefsIndent orefs).data ++
        ("\n  \x7d").data ++ l) =
      some ([("output", .str outS), ("tokens", .num tok),
        ("references", refsToJson orefs)], l) := by
  show parseMembers ((f + refsFuel orefs + 2) + 1) _ = _
  rw [parseMembers]
  simp only [String.data, List.cons_append, List.nil_append]
  rw [skipWs_not_ws '"' _ (by decide)]
  simp [parseStringBody, skipWs, isWs, List.append_assoc]
  rw [parseValue_ws_cons (f + refsFuel orefs + 2) ' ' _ (by decide)]
  rw [show (f + refsFuel orefs + 2 : Nat) = (f + refsFuel orefs + 1) + 1 from rfl,
    parseValue_goQuote]
  simp [skipWs, isWs]
  rw [parseMembers]
  simp [parseStringBody, skipWs, isWs, List.append_assoc]
  rw [parseValue_ws_cons (f + refsFuel orefs + 1) ' ' _ (by decide)]
  rw [parseValue_goItoa (f + refsFuel orefs) tok _ (by exact rfl)]
  simp [skipWs, isWs]
  rw [parseMembers]
  simp [parseStringBody, skipWs, isWs, List.append_assoc]
  rw [parseValue_ws_cons (f + refsFuel orefs) ' ' _ (by decide)]
  rw [parseValue_refsIndent f orefs]
  simp [skipWs, isWs]

/-- The marshalled `data` object parses back to its JSON object value. -/
theorem parseValue_dataObj (f : Nat) (outS : String) (tok : Int)
    (orefs : Option (List Reference)) (l : List Char) :
    parseValue (f + refsFuel orefs + 4)
      (("\x7b\n    \"output\": ").data ++ (goQuote outS).data ++
        (",\n    \"tokens\": ").data ++ (goItoa tok).data ++
        (",\n    \"references\": ").data ++ (goRefsIndent orefs).data ++
        ("\n  \x7d").data ++ l) =
      some (.obj [("output", .str outS), ("tokens", .num tok),
        ("references", refsToJson orefs)], l) := by
  show parseValue ((f + refsFuel orefs + 3) + 1) _ = _
  have hm := parseMembers_data f outS tok orefs l
  simp only [String.data_append, String.data, List.cons_append, List.nil_append,
    List.append_assoc] at hm
  rw [parseValue]
  simp only [String.data_append, String.data, List.cons_append, List.nil_append,
    List.append_assoc]
  simp [skipWs, isWs]
  rw [hm]

/-- The whole `MarshalIndent` output of a response parses back to the
response's JSON value. -/
theorem parseValue_top (f : Nat) (resp : FastGPTResponse) (l : List Char) :
    parseValue (f + refsFuel resp.Data.References + 7)
      ((goMarshalIndentResp resp).data ++ l) =
      some (respToJson resp, l) := by
  show parseValue ((f + refsFuel resp.Data.References + 6) + 1) _ = _
  have hmeta := parseValue_metaObj (f + refsFuel resp.Data.References)
    resp.Meta.ID resp.Meta.Node resp.Meta.MS
    ((",\n  \"data\": \x7b\n    \"output\": ").data ++
      (goQuote resp.Data.Output).data ++
      (",\n    \"tokens\": ").data ++ (goItoa resp.Data.Tokens).data ++
      (",\n    \"references\": ").data ++
      (goRefsIndent resp.Data.References).data ++
      ("\n  \x7d\n\x7d").data ++ l)
  simp only [String.data_append, String.data, List.cons_append, List.nil_append,
    List.append_assoc] at hmeta
  have hdata := parseValue_dataObj f resp.Data.Output resp.Data.Tokens
    resp.Data.References (("\n\x7d").data ++ l)
  simp only [String.data_append, String.data, List.cons_append, List.nil_append,
    List.append_assoc] at hdata
  rw [goMarshalIndentResp]
  rw [parseValue]
  simp only [String.data_append, String.data, List.cons_append, List.nil_append,
    List.append_assoc]
  simp [skipWs, isWs]
  rw [show (f + refsFuel resp.Data.References + 6 : Nat) =
    (f + refsFuel resp.Data.References + 5) + 1 from rfl]
  rw [parseMembers]
  simp [parseStringBody, skipWs, isWs, List.append_assoc]
  rw [parseValue_ws_cons (f + refsFuel resp.Data.References + 5) ' ' _ (by decide)]
  rw [hmeta]
  simp [skipWs, isWs]
  rw [show (f + refsFuel resp.Data.References + 5 : Nat) =
    (f + refsFuel resp.Data.References + 4) + 1 from rfl]
  rw [parseMembers]
  simp [parseStringBody, skipWs, isWs, List.append_assoc]
  rw [parseValue_ws_cons (f + refsFuel resp.Data.References + 4) ' ' _ (by decide)]
  rw [hdata]
  simp [skipWs, isWs, respToJson]

theorem goRefItemsIndent_length (refs : List Reference) (h : refs ≠ []) :
    7 * refs.length ≤ (goRefItemsIndent refs).length := by
  induction refs with
  | nil => exact absurd rfl h
  | cons r rs ih =>
    have hitem : 7 ≤ (goRefItemIndent r).length := by
      rw [goRefItemIndent]
      simp only [String.length_append]
      have h1 : 7 ≤ ("      \x7b\n        \"title\": ").length := by decide
      omega
    cases rs with
    | nil =>
      rw [show goRefItemsIndent [r] = goRefItemIndent r from rfl]
      simpa using hitem
    | cons r2 rs2 =>
      rw [show goRefItemsIndent (r :: r2 :: rs2) =
        goRefItemIndent r ++ ",\n" ++ goRefItemsIndent (r2 :: rs2) from rfl]
      have hrest := ih (by simp)
      simp only [String.length_append, List.length_cons] at hrest ⊢
      have h2 : (",\n").length = 2 := rfl
      omega

/-- The marshalled response is long enough that `jsonDecode`'s fuel policy
(input length plus one) covers the fuel the structural lemmas need. -/
theorem goMarshalIndentResp_length (resp : FastGPTResponse) :
    refsFuel resp.Data.References + 6 ≤ (goMarshalIndentResp resp).length := by
  rw [goMarshalIndentResp]
  simp only [String.length_append]
  have h1 : 24 ≤ ("\x7b\n  \"meta\": \x7b\n    \"id\": ").length := by decide
  cases horef : resp.Data.References with
  | none =>
    rw [show refsFuel none = 1 from rfl]
    omega
  | some refs =>
    cases refs with
    | nil =>
      rw [show refsFuel (some ([] : List Reference)) = 1 from rfl]
      omega
    | cons r rs =>
      rw [show refsFuel (some (r :: rs)) = 7 * (r :: rs).length + 2 from rfl]
      have hlen : 7 * (r :: rs).length ≤ (goRefItemsIndent (r :: rs)).length :=
        goRefItemsIndent_length (r :: rs) (by simp)
      rw [show goRefsIndent (some (r :: rs)) =
        "[\n" ++ goRefItemsIndent (r :: rs) ++ "\n    ]" from rfl]
      simp only [String.length_append, List.length_cons] at hlen ⊢
      omega

/-- Round trip of the full-mode JSON output: decoding the marshalled
response (with its trailing newline) recovers the response's JSON value. -/
theorem jsonDecode_full (resp : FastGPTResponse) :
    jsonDecode (goMarshalIndentResp resp ++ "\n") = some (respToJson resp) := by
  have hdd : (goMarshalIndentResp resp ++ "\n").data =
      (goMarshalIndentResp resp).data ++ ['\n'] := by simp
  have hlen : refsFuel resp.Data.References + 6 ≤
      (goMarshalIndentResp resp).data.length :=
    goMarshalIndentResp_length resp
  obtain ⟨f, hf⟩ : ∃ f, ((goMarshalIndentResp resp).data ++ ['\n']).length + 1 =
      f + refsFuel resp.Data.References + 7 := by
    refine ⟨((goMarshalIndentResp resp).data ++ ['\n']).length + 1 -
      (refsFuel resp.Data.References + 7), ?_⟩
    simp only [List.length_append, List.length_cons, List.length_nil]
    omega
  rw [jsonDecode, hdd, hf, parseValue_top f resp ['\n']]
  simp [skipWs, isWs]

/-- Round trip of the quiet-mode JSON output: decoding the marshalled answer
string (with its trailing newline) recovers the answer. -/
theorem jsonDecode_quiet (s : String) :
    jsonDecode (goQuote s ++ "\n") = some (.str s) := by
  have hdd : (goQuote s ++ "\n").data = (goQuote s).data ++ ['\n'] := by simp
  rw [jsonDecode, hdd, parseValue_goQuote]
  simp [skipWs, isWs]

/-! Claim theorems. -/

/-- Claim C1, counterexample: `Format = "md"` is a string other than
`"json"` and other than `"markdown"`, yet the dispatcher renders markdown
(`"# q\n\nHello\n"`), not the text rendering (`"Hello\n"`), because the
code's markdown format constant is `"md"`. -/
theorem c1_counterexample :
    formatOutput ⟨⟨"id1", "node1", 7⟩, ⟨"Hello", 3, some []⟩⟩
        (wCfg "md" false false) false = .ok ("# greeting\n\nHello\n") ∧
    formatOutput ⟨⟨"id1", "node1", 7⟩, ⟨"Hello", 3, some []⟩⟩
        { wCfg "md" false false with Format := "text" } false = .ok ("Hello\n") ∧
    (wCfg "md" false false).Format ≠ "json" ∧
    (wCfg "md" false false).Format ≠ "markdown" ∧
    ("# greeting\n\nHello\n" : String) ≠ "Hello\n" :=
  ⟨rfl, rfl, by decide, by decide, by decide⟩

/-- Claim C1, amended: for every response and configuration whose format is
any string other than `"json"` and other than `"md"` (the code's canonical
markdown format value), the dispatcher returns exactly the output it returns
with the format set to `"text"`. -/
theorem c1_dispatch_defaults_to_text (resp : FastGPTResponse) (config : Config)
    (t : Bool) (hj : config.Format ≠ "json") (hm : config.Format ≠ "md") :
    formatOutput resp config t =
      formatOutput resp { config with Format := "text" } t := by
  simp [formatOutput, hj, hm, formatText_output, shouldUseColor]

/-- Claim C1 witness: the amended theorem applied at format `"xml"`. -/
theorem c1_dispatch_defaults_to_text_witness :
    formatOutput wResp (wCfg "xml" true false) false =
      formatOutput wResp { wCfg "xml" true false with Format := "text" } false :=
  c1_dispatch_defaults_to_text wResp (wCfg "xml" true false) false
    (by decide) (by decide)

/-- Claim C2, counterexample: a valid response whose references slice is nil
(as Go produces when the API response omits the key) has zero references, yet
the full-mode JSON output's `data.references` field decodes to `null`, not to
the empty array. -/
theorem c2_counterexample :
    formatJSON_output ⟨⟨"i", "n", 7⟩, ⟨"Hi", 3, none⟩⟩ (wCfg "json" false false) =
      .ok (goMarshalIndentResp ⟨⟨"i", "n", 7⟩, ⟨"Hi", 3, none⟩⟩ ++ "\n") ∧
    ((jsonDecode (goMarshalIndentResp ⟨⟨"i", "n", 7⟩, ⟨"Hi", 3, none⟩⟩ ++ "\n")).bind
        (fun j => j.field "data")).bind (fun d => d.field "references") =
      some Json.null ∧
    some Json.null ≠ some (Json.arr []) := by
  refine ⟨rfl, ?_, by simp⟩
  rw [jsonDecode_full]
  rfl

/-- Claim C2, amended: for every valid response whose references slice is a
present (non-nil) empty array and every configuration with `Quiet = false`,
the JSON renderer's output decodes to an object whose `data.references` field
is the empty array `[]` — present, not `null`.  (A nil slice marshals to
`null` instead.) -/
theorem c2_empty_references_array (resp : FastGPTResponse) (config : Config)
    (hq : config.Quiet = false) (he : resp.Data.References = some []) :
    ∃ out, formatJSON_output resp config = .ok out ∧
      ((jsonDecode out).bind (fun j => j.field "data")).bind
        (fun d => d.field "references") = some (Json.arr []) := by
  refine ⟨goMarshalIndentResp resp ++ "\n", ?_, ?_⟩
  · simp [formatJSON_output, goMarshalIndentRespE, hq]
  · rw [jsonDecode_full]
    simp [respToJson, Json.field, fieldLookup, refsToJson, he]

/-- Claim C2 witness: the amended theorem at a concrete response carrying a
present, empty references array. -/
theorem c2_empty_references_array_witness :
    ∃ out, formatJSON_output ⟨⟨"i", "n", 120⟩, ⟨"Hi", 3, some []⟩⟩
        (wCfg "json" false false) = .ok out ∧
      ((jsonDecode out).bind (fun j => j.field "data")).bind
        (fun d => d.field "references") = some (Json.arr []) :=
  c2_empty_references_array ⟨⟨"i", "n", 120⟩, ⟨"Hi", 3, some []⟩⟩
    (wCfg "json" false false) rfl rfl

/-- Claim C3: with `Quiet = true` each renderer emits the answer alone —
text and markdown return exactly the answer followed by one newline, and the
JSON renderer returns exactly the JSON string serialization of the answer
followed by one newline; in particular no heading and no references marker is
ever emitted. -/
theorem c3_quiet_only_answer (resp : FastGPTResponse) (config : Config)
    (t : Bool) (h : config.Quiet = true) :
    formatText_output resp config t = resp.Data.Output ++ "\n" ∧
    formatMarkdown_output resp config = resp.Data.Output ++ "\n" ∧
    formatJSON_output resp config = .ok (goQuote resp.Data.Output ++ "\n") := by
  refine ⟨?_, ?_, ?_⟩
  · simp [formatText_output, h]
  · simp [formatMarkdown_output, h]
  · simp [formatJSON_output, goMarshalIndentOutputE, h]

/-- Claim C3 witness: quiet rendering of the sample response. -/
theorem c3_quiet_only_answer_witness :
    formatText_output wResp (wCfg "text" true true) false = wResp.Data.Output ++ "\n" ∧
    formatMarkdown_output wResp (wCfg "text" true true) = wResp.Data.Output ++ "\n" ∧
    formatJSON_output wResp (wCfg "text" true true) =
      .ok (goQuote wResp.Data.Output ++ "\n") :=
  c3_quiet_only_answer wResp (wCfg "text" true true) false rfl

/-- Claim C4: for every valid response and configuration, the JSON renderer
returns (with no error) a string that a JSON decoder accepts, decoding in
quiet mode to the JSON string value of the answer and in full mode to the
response's JSON object — so the output is syntactically valid JSON and
round-trips through the decoder in both modes. -/
theorem c4_json_round_trip (resp : FastGPTResponse) (config : Config) :
    ∃ out, formatJSON_output resp config = .ok out ∧
      jsonDecode out =
        some (if config.Quiet = true then Json.str resp.Data.Output
          else respToJson resp) := by
  by_cases h : config.Quiet = true
  · refine ⟨goQuote resp.Data.Output ++ "\n", ?_, ?_⟩
    · simp [formatJSON_output, goMarshalIndentOutputE, h]
    · rw [if_pos h]
      exact jsonDecode_quiet resp.Data.Output
  · refine ⟨goMarshalIndentResp resp ++ "\n", ?_, ?_⟩
    · simp [formatJSON_output, goMarshalIndentRespE, h]
    · rw [if_neg h]
      exact jsonDecode_full resp

/-- Claim C5: the dispatcher passes the JSON renderer's result through
unchanged, wraps the markdown and text renderers (which are total string
functions) with a nil error, and can itself return an error only when the
format is `"json"` and the JSON renderer returned that very error — there is
no recovery and no fallback rendering in another format. -/
theorem c5_error_propagation (resp : FastGPTResponse) (config : Config)
    (t : Bool) :
    (config.Format = "json" →
      formatOutput resp config t = formatJSON_output resp config) ∧
    (config.Format = "md" →
      formatOutput resp config t = .ok (formatMarkdown_output resp config)) ∧
    (config.Format ≠ "json" → config.Format ≠ "md" →
      formatOutput resp config t = .ok (formatText_output resp config t)) ∧
    (∀ e, formatOutput resp config t = .error e →
      config.Format = "json" ∧ formatJSON_output resp config = .error e) := by
  refine ⟨?_, ?_, ?_, ?_⟩
  · intro h; simp [formatOutput, h]
  · intro h
    by_cases hj : config.Format = "json"
    · rw [h] at hj; exact absurd hj (by decide)
    · simp [formatOutput, h, hj]
  · intro hj hm; simp [formatOutput, hj, hm]
  · intro e h
    by_cases hj : config.Format = "json"
    · refine ⟨hj, ?_⟩; simpa [formatOutput, hj] using h
    · by_cases hm : config.Format = "md" <;> simp [formatOutput, hj, hm] at h

/-- Claim C5 witness: dispatch at format `"json"` propagates the JSON
renderer's result unchanged. -/
theorem c5_error_propagation_witness :
    formatOutput wResp (wCfg "json" false false) false =
      formatJSON_output wResp (wCfg "json" false false) :=
  (c5_error_propagation wResp (wCfg "json" false false) false).1 rfl

/-- Claim C6: in text format the heading line (the colorized `"# " + query`
followed by a blank line) is prepended exactly when `Heading = true` and
`Quiet = false`; otherwise the output is identical to the rendering with the
heading flag off, so no heading material is emitted. -/
theorem c6_text_heading_iff (resp : FastGPTResponse) (config : Config)
    (t : Bool) :
    (config.Heading = true ∧ config.Quiet = false →
      formatText_output resp config t =
        colorize ("# " ++ config.Query) ansiBoldBlue (shouldUseColor config t) ++
          "\n\n" ++ formatText_output resp { config with Heading := false } t) ∧
    (¬(config.Heading = true ∧ config.Quiet = false) →
      formatText_output resp config t =
        formatText_output resp { config with Heading := false } t) := by
  constructor
  · rintro ⟨h1, h2⟩
    simp [formatText_output, shouldUseColor, h1, h2, String.append_assoc]
  · intro h
    cases hH : config.Heading <;> cases hQ : config.Quiet
    · simp [formatText_output, shouldUseColor, hH, hQ]
    · simp [formatText_output, shouldUseColor, hH, hQ]
    · exact absurd ⟨hH, hQ⟩ h
    · simp [formatText_output, shouldUseColor, hH, hQ]

/-- Claim C6 witness: heading on, quiet off, at the sample input. -/
theorem c6_text_heading_iff_witness :
    formatText_output wResp (wCfg "text" true false) false =
      colorize ("# " ++ (wCfg "text" true false).Query) ansiBoldBlue
          (shouldUseColor (wCfg "text" true false) false) ++
        "\n\n" ++
        formatText_output wResp { wCfg "text" true false with Heading := false } false :=
  (c6_text_heading_iff wResp (wCfg "text" true false) false).1 ⟨rfl, rfl⟩

/-- Claim C7: in markdown format with `Quiet = false` the output begins with
`"# " + query` and a blank line, and the `Heading` flag has no effect on the
markdown rendering. -/
theorem c7_markdown_heading (resp : FastGPTResponse) (config : Config)
    (h : config.Quiet = false) :
    (∃ rest, formatMarkdown_output resp config =
      "# " ++ config.Query ++ "\n\n" ++ rest) ∧
    (∀ b, formatMarkdown_output resp { config with Heading := b } =
      formatMarkdown_output resp config) := by
  constructor
  · refine ⟨resp.Data.Output ++ "\n" ++
      (if 0 < (refsList resp).length then
        "\n## References\n\n" ++ mdRefLoop 0 (refsList resp)
      else ""), ?_⟩
    simp [formatMarkdown_output, h, String.append_assoc]
  · intro b; simp [formatMarkdown_output]

/-- Claim C7 witness: the sample response in markdown, not quiet, with the
heading flag set both ways. -/
theorem c7_markdown_heading_witness :
    (∃ rest, formatMarkdown_output wResp (wCfg "md" false false) =
      "# " ++ (wCfg "md" false false).Query ++ "\n\n" ++ rest) ∧
    (∀ b, formatMarkdown_output wResp { wCfg "md" false false with Heading := b } =
      formatMarkdown_output wResp (wCfg "md" false false)) :=
  c7_markdown_heading wResp (wCfg "md" false false) rfl

/-- Claim C8: `colorize` is the identity when color is disabled; with color
enabled it wraps the text (even an empty text) between the style code and the
reset code. -/
theorem c8_colorize (s c : String) :
    colorize s c false = s ∧
    colorize s c true = c ++ s ++ ansiReset ∧
    colorize "" ansiBold true = ansiBold ++ ansiReset := by
  refine ⟨rfl, rfl, ?_⟩
  simp [colorize]

/-- Claim C9: in text format, not quiet, the reference at zero-based index
`i` is emitted as a line numbered `i + 1` of the documented shape, terminated
by a newline; a reference with an empty snippet gets no trailing separator,
and a non-empty snippet is appended after `" - "`. -/
theorem c9_text_reference_lines (resp : FastGPTResponse) (config : Config)
    (t : Bool) (hq : config.Quiet = false) :
    (∀ i r, (refsList resp).get? i = some r →
      ∃ pre suf, formatText_output resp config t =
        pre ++ textRefLine (shouldUseColor config t) (i + 1) r ++ suf) ∧
    (∀ n r, r.Snippet = "" →
      textRefLine (shouldUseColor config t) n r =
        colorize (natToDec n ++ ". ") ansiYellow (shouldUseColor config t) ++
          r.Title ++ " - " ++ colorize r.URL ansiCyan (shouldUseColor config t) ++
          "\n") ∧
    (∀ n r, r.Snippet ≠ "" →
      textRefLine (shouldUseColor config t) n r =
        colorize (natToDec n ++ ". ") ansiYellow (shouldUseColor config t) ++
          r.Title ++ " - " ++ colorize r.URL ansiCyan (shouldUseColor config t) ++
          " - " ++ r.Snippet ++ "\n") := by
  refine ⟨?_, ?_, ?_⟩
  · intro i r h
    obtain ⟨pre, suf, hEq⟩ := textRefLoop_get (shouldUseColor config t) (refsList resp) 0 i r h
    have hlen : 0 < (refsList resp).length := by
      obtain ⟨hi, -⟩ := List.get?_eq_some.mp h
      omega
    refine ⟨(if config.Heading && !config.Quiet then
        colorize ("# " ++ config.Query) ansiBoldBlue (shouldUseColor config t) ++ "\n\n"
      else "") ++ resp.Data.Output ++ "\n" ++
      ("\n" ++ colorize "References:" ansiBold (shouldUseColor config t) ++ "\n\n") ++
      pre, suf, ?_⟩
    simp only [formatText_output, hq, Bool.not_false, Bool.true_and, hlen,
      decide_eq_true_eq, if_pos, String.append_assoc]
    simp [hlen, hEq, String.append_assoc]
  · intro n r h; simp [textRefLine, h, String.append_assoc]
  · intro n r h; simp [textRefLine, h, String.append_assoc]

/-- Claim C9 witness: both reference-line shapes and the indexed occurrence,
at a concrete two-reference response. -/
theorem c9_text_reference_lines_witness :
    (∃ pre suf,
      formatText_output ⟨⟨"i", "n", 1⟩, ⟨"Out", 2, some [⟨"T1", "", "U1"⟩, ⟨"T2", "S2", "U2"⟩]⟩⟩
          (wCfg "text" false false) false =
        pre ++ textRefLine (shouldUseColor (wCfg "text" false false) false) 2
          ⟨"T2", "S2", "U2"⟩ ++ suf) :=
  (c9_text_reference_lines
      ⟨⟨"i", "n", 1⟩, ⟨"Out", 2, some [⟨"T1", "", "U1"⟩, ⟨"T2", "S2", "U2"⟩]⟩⟩
      (wCfg "text" false false) false rfl).1 1 ⟨"T2", "S2", "U2"⟩ rfl

/-- Claim C10: with `Quiet = true` the text and markdown renderers return the
identical string — the answer followed by a single newline — for every color
mode and every terminal-detection value. -/
theorem c10_quiet_text_markdown_agree (resp : FastGPTResponse) (config : Config)
    (t : Bool) (h : config.Quiet = true) :
    formatText_output resp config t = resp.Data.Output ++ "\n" ∧
    formatMarkdown_output resp config = resp.Data.Output ++ "\n" := by
  constructor
  · simp [formatText_output, h]
  · simp [formatMarkdown_output, h]

/-- Claim C10 witness: the sample response, quiet, color `always`, terminal
flags both irrelevant. -/
theorem c10_quiet_text_markdown_agree_witness :
    formatText_output wResp { wCfg "text" true true with Color := "always" } true =
      wResp.Data.Output ++ "\n" ∧
    formatMarkdown_output wResp { wCfg "text" true true with Color := "always" } =
      wResp.Data.Output ++ "\n" :=
  c10_quiet_text_markdown_agree wResp
    { wCfg "text" true true with Color := "always" } true rfl

end Kagi
